import Mathlib

/-!
Verification of `ppmac_plugin.py` (NSLS-II-HXN/ppmac).

A shallow embedding of the command-handler plugin for the Power PMAC
operator console.  External collaborators (the SSH channel `pp_comm`, the
gathering subsystem `ppmac_gather`, the completer, plotting) are modelled
as abstract oracles/parameters; the control flow of the plugin file itself
is translated faithfully.
-/

namespace Ppmac

/-- A connection handle, as built by the `PPComm` constructor: it records
exactly the four values passed to `PPComm(host=…, port=…, user=…, password=…)`
in `PpmacCore.connect`. -/
structure CommHandle where
  host : String
  port : Int
  user : String
  password : String
deriving DecidableEq, Repr

/-- The state of the `PpmacCore` object that the connection-management code
reads and writes: the configuration traitlets `host`, `port`, `user`,
`password`, `auto_connect`, and the connection handle `self.comm`
(`None` ↦ `none`). -/
structure CoreState where
  host : String
  port : Int
  user : String
  password : String
  auto_connect : Bool
  comm : Option CommHandle
deriving DecidableEq, Repr

/-- Method `PpmacCore.connect(host, port, user, password)`: each argument that
is `None` is replaced by the stored configuration value, then
`self.comm = PPComm(host=host, port=port, user=user, password=password)`.
(The completer re-initialisation that follows touches only the completer,
not `self.comm`, and is omitted from this state.) -/
def connect (s : CoreState) (host : Option String) (port : Option Int)
    (user : Option String) (password : Option String) : CoreState :=
  let host := match host with | none => s.host | some h => h
  let port := match port with | none => s.port | some p => p
  let user := match user with | none => s.user | some u => u
  let password := match password with | none => s.password | some p => p
  { s with comm := some ⟨host, port, user, password⟩ }

/-- Method `PpmacCore.check_comm`: when `self.comm is None`, connect if
`auto_connect` else log an error; return `self.comm is not None`.
Result: the returned boolean together with the state after the call. -/
def check_comm (s : CoreState) : Bool × CoreState :=
  let s' :=
    if s.comm = none then
      if s.auto_connect then connect s none none none none
      else s  -- logger.error('Not connected')
    else s
  (s'.comm ≠ none, s')

/-- A Python `str` is modelled as a list of characters. -/
abbrev Str := List Char

/-- Python's `s.split(sep)` for a single-character separator `sep`:
`''.split('=') = ['']`, `'a=b'.split('=') = ['a', 'b']`, etc. -/
def pySplit (sep : Char) : Str → List Str
  | [] => [[]]
  | c :: rest =>
    if c = sep then [] :: pySplit sep rest
    else
      match pySplit sep rest with
      | [] => [[c]]
      | s :: ss => (c :: s) :: ss

/-- Python's `var.split('.')[-1]`: the last dot-separated component.
`pySplit` never returns `[]`, so the default is never used. -/
def lastComponent (s : Str) : Str :=
  (pySplit '.' s).getLast?.getD s

/-- An exception raised by the gpascii channel while talking to the device:
`GPError` or `TimeoutError` (both imported from `pp_comm`), carrying the
exception text. -/
inductive CommErr
  | gp (msg : Str)
  | timeout (msg : Str)
deriving DecidableEq, Repr

/-- A request issued to the device through the connection handle
`self.comm` (directly or through its gpascii channel). -/
inductive Request
  | sendLine (line : Str)
  | readTimeout (timeout : Int)
  | getVariable (var : Str)
  | setVariable (var : Str) (value : Str)
  | shellCommand (cmd : Str)
  | copySettings (motorFrom motorTo : Int)
  | gatherAndPlot (addresses : List Str) (period : Int)
deriving DecidableEq, Repr

/-- The device seen through the gpascii channel, as an oracle: what each
get/set/read returns (or which exception it raises).  `readTimeout` yields
the lines read before the timeout fires (the handler catches the
`TimeoutError` that ends the stream). -/
structure GpasciiChannel where
  getVariable : Str → Except CommErr Str
  setVariable : Str → Str → Except CommErr Str
  readTimeout : Int → List Str

/-- The result of one command handler: the device requests it issued, the
lines it printed, and the plugin state when it returns. -/
abbrev HandlerResult := List Request × List Str × CoreState

/-- Handler `PpmacCore.gpascii` (alias `g`): check the connection, parse
arguments, send the joined command line, then print each non-empty line read
until the timeout (`KeyboardInterrupt`/`TimeoutError` are caught).
`args = none` models a falsy `parse_argstring` result. -/
def gpascii_cmd (s : CoreState) (gp : GpasciiChannel)
    (args : Option (List Str × Int)) : HandlerResult :=
  let (ok, s') := check_comm s
  if ok = false then ([], [], s')
  else
    match args with
    | none => ([], [], s')
    | some (cmd, tmo) =>
      let line := (List.intersperse [' '] cmd).flatten
      ([.sendLine line, .readTimeout tmo],
       (gp.readTimeout tmo).filter (fun l => l ≠ []), s')

/-- Handler `PpmacCore.get_var`: check the connection, parse, then print
`var=value`; a `GPError` from `get_variable` is caught and printed, while a
`TimeoutError` propagates (only `GPError` is handled). -/
def get_var_cmd (s : CoreState) (gp : GpasciiChannel) (args : Option Str) :
    Except CommErr HandlerResult :=
  let (ok, s') := check_comm s
  if ok = false then .ok ([], [], s')
  else
    match args with
    | none => .ok ([], [], s')
    | some varName =>
      match gp.getVariable varName with
      | .ok v => .ok ([.getVariable varName], [varName ++ '=' :: v], s')
      | .error (.gp m) => .ok ([.getVariable varName], [m], s')
      | .error (.timeout m) => .error (.timeout m)

/-- Handler `PpmacCore.set_var`: check the connection, parse, set the
variable and print `var=result`; a `GPError` is caught and printed. -/
def set_var_cmd (s : CoreState) (gp : GpasciiChannel)
    (args : Option (Str × Str)) : Except CommErr HandlerResult :=
  let (ok, s') := check_comm s
  if ok = false then .ok ([], [], s')
  else
    match args with
    | none => .ok ([], [], s')
    | some (varName, value) =>
      match gp.setVariable varName value with
      | .ok r => .ok ([.setVariable varName value], [varName ++ '=' :: r], s')
      | .error (.gp m) => .ok ([.setVariable varName value], [m], s')
      | .error (.timeout m) => .error (.timeout m)

/-- Argument parsing step of `PpmacCore.v`: when the first argument contains
`'='`, take `var, value = args.variable.split('=')[:2]`; otherwise the
variable is the first argument and the value the (optional) second.  The
fallback arm is unreachable: `'=' ∈ variable` forces at least two split
pieces (`pySplit_two_of_mem`). -/
def vParse (varName : Str) (value : Option Str) : Str × Option Str :=
  if '=' ∈ varName then
    match pySplit '=' varName with
    | v :: w :: _ => (v, some w)
    | _ => (varName, value)
  else (varName, value)

/-- Handler `PpmacCore.v`: check the connection, parse (see `vParse`), then
get the variable when the value is `None` and set it otherwise, printing
`var=result`; a `GPError` is caught and printed. -/
def v_cmd (s : CoreState) (gp : GpasciiChannel)
    (args : Option (Str × Option Str)) : Except CommErr HandlerResult :=
  let (ok, s') := check_comm s
  if ok = false then .ok ([], [], s')
  else
    match args with
    | none => .ok ([], [], s')
    | some (varName, value) =>
      match vParse varName value with
      | (var, none) =>
        match gp.getVariable var with
        | .ok v => .ok ([.getVariable var], [var ++ '=' :: v], s')
        | .error (.gp m) => .ok ([.getVariable var], [m], s')
        | .error (.timeout m) => .error (.timeout m)
      | (var, some val) =>
        match gp.setVariable var val with
        | .ok r => .ok ([.setVariable var val], [var ++ '=' :: r], s')
        | .error (.gp m) => .ok ([.setVariable var val], [m], s')
        | .error (.timeout m) => .error (.timeout m)

/-- Python's `line.rstrip()`. -/
def rstrip (l : Str) : Str :=
  (l.reverse.dropWhile (·.isWhitespace)).reverse

/-- Handler `PpmacCore.shell_cmd`: `if not command or not self.check_comm():
return`, then print each line of `self.comm.shell_command(command)`
right-stripped.  The shell oracle `sh` gives the lines the device returns. -/
def shell_cmd (s : CoreState) (sh : Str → List Str) (command : Str) :
    HandlerResult :=
  if command = [] then ([], [], s)
  else
    let (ok, s') := check_comm s
    if ok = false then ([], [], s')
    else ([.shellCommand command], (sh command).map rstrip, s')

/-- Handler `PpmacCore.servo_copy`: parse, check the connection, then if
the two motor numbers coincide log an error and return; otherwise call
`tune.copy_settings` on the gpascii channel. -/
def servo_copy_cmd (s : CoreState) (args : Option (Int × Int)) :
    HandlerResult :=
  match args with
  | none => ([], [], s)
  | some (motor_from, motor_to) =>
    let (ok, s') := check_comm s
    if ok = false then ([], [], s')
    else if motor_from = motor_to then ([], [], s')
    else ([.copySettings motor_from motor_to], [], s')

/-- The completer, as an oracle: `check` maps a variable path to the node it
resolves to (rendered with `str(...)`), `search` returns the matching rows
keyed by entry name, row cells being `None` or strings. -/
structure Completer where
  check : Str → Str
  search : Str → Str → List (Str × List (Option Str))

/-- Helper `fix_row` inside `PpmacCore.search`:
`' | '.join(str(item) for item in row if item not in (u'NULL', None))`. -/
def fix_row (row : List (Option Str)) : Str :=
  (List.intersperse (' ' :: '|' :: [' '])
    (row.filterMap fun item =>
      match item with
      | none => none
      | some s => if s = ['N', 'U', 'L', 'L'] then none else some s)).flatten

/-- Handler `PpmacCore.search`: guarded by the completer being configured
(not by `check_comm`); it resolves the variable through the completer and
prints `key: row` for each search hit.  It issues no request through the
connection handle. -/
def search_cmd (s : CoreState) (completer : Option Completer)
    (args : Option (Str × Str)) : HandlerResult :=
  match completer with
  | none => ([], [['C','o','m','p','l','e','t','e','r',' ','n','o','t',' ',
                  'c','o','n','f','i','g','u','r','e','d']], s)
  | some c =>
    match args with
    | none => ([], [], s)
    | some (varName, text) =>
      let items := c.search (c.check varName) text
      ([], items.map (fun kv => kv.1 ++ ':' :: ' ' :: fix_row kv.2), s)

/-- Literal `'Sys.ServoCount.a'`. -/
def servoCountA : Str := "Sys.ServoCount.a".toList

/-- Literal suffix `'.a'`. -/
def dotA : Str := ['.', 'a']

/-- Helper `fix_addr` inside `PpmacCore.gather`: run the address through the
completer when one is configured, then append `'.a'` unless the address
already ends with it. -/
def fix_addr (completer : Option (Str → Str)) (addr : Str) : Str :=
  let addr := match completer with | none => addr | some check => check addr
  if dotA.isSuffixOf addr then addr else addr ++ dotA

/-- Address-list preparation in `PpmacCore.gather`: fix every user-supplied
address, then insert `'Sys.ServoCount.a'` at position 0 unless it is already
present. -/
def gather_addresses (completer : Option (Str → Str)) (addresses : List Str) :
    List Str :=
  let addr := addresses.map (fix_addr completer)
  if servoCountA ∈ addr then addr else servoCountA :: addr

/-- Handler `PpmacCore.gather`: parse, check the connection, prepare the
address list (see `gather_addresses`), then hand it to
`gather.gather_and_plot(self.comm, addr, duration=…, period=…)`.  The
`duration` float argument is passed through unchanged and is not recorded
in the request. -/
def gather_cmd (s : CoreState) (completer : Option (Str → Str))
    (args : Option (List Str × Int)) : HandlerResult :=
  match args with
  | none => ([], [], s)
  | some (addresses, period) =>
    let (ok, s') := check_comm s
    if ok = false then ([], [], s')
    else ([.gatherAndPlot (gather_addresses completer addresses) period], [], s')

/-- The settings dictionary parsed from the gather settings file by
`gather.read_settings_file`, restricted to what the plugin reads from it:
an association of keys to address lists (`first`-match lookup models the
Python dict). -/
abbrev Settings := List (Str × List Str)

/-- Python's `key in settings` / `settings[key]` on the association list. -/
def settingsLookup (settings : Settings) (key : Str) : Option (List Str) :=
  match settings with
  | [] => none
  | (k, v) :: rest => if k = key then some v else settingsLookup rest key

/-- Literal key `'gather.addr'`. -/
def gatherAddrKey : Str := "gather.addr".toList

/-- A Python exception that `PpmacCore.get_gather_results` can raise. -/
inductive PyError
  | keyError (msg : Str)
deriving DecidableEq, Repr

/-- Method `PpmacCore.get_gather_results`: read the settings file (the
`settings` argument models what `gather.read_settings_file` returned), raise
`KeyError` when `'gather.addr'` is missing, otherwise return the settings
together with the gather data retrieved for `settings['gather.addr']`
(`getResults` models `gather.get_gather_results(self.comm, addresses)`). -/
def get_gather_results {D : Type} (settings : Settings)
    (getResults : List Str → D) : Except PyError (Settings × D) :=
  match settingsLookup settings gatherAddrKey with
  | none =>
    .error (.keyError ("gather.addr: Unable to read addresses from settings file".toList))
  | some addresses => .ok (settings, getResults addresses)

/-- What `PpmacCore.gather_save` does with the gathered table after the
`try`/`except KeyError` block: write it to a file, or dump it to stdout. -/
inductive SaveAction (D : Type)
  | toFile (filename : Str) (addresses : List Str) (data : D) (delim : Str)
  | toStdout (addresses : List Str) (data : D)
deriving DecidableEq, Repr

/-- Handler `PpmacCore.gather_save` after connection check and parsing:
call `get_gather_results`, and on `KeyError` log it and return without
saving (`none`); otherwise save to `save_to` when given, else print to
stdout.  `args = (save_to, settings_file-irrelevant, delimiter)`. -/
def gather_save_cmd {D : Type} (settings : Settings)
    (getResults : List Str → D) (save_to : Option Str)
    (delimiter : Option Str) : Option (SaveAction D) :=
  match get_gather_results settings getResults with
  | .error _ => none
  | .ok (settings, data) =>
    match settingsLookup settings gatherAddrKey with
    | none => none  -- unreachable: get_gather_results succeeded
    | some addresses =>
      let delim := match delimiter with | none => ['\t'] | some d => d
      match save_to with
      | none => some (.toStdout addresses data)
      | some fn => some (.toFile fn addresses data delim)

/-- The text of a `pp_comm` exception, as `str(ex)` renders it. -/
def showCommErr : CommErr → Str
  | .gp m => m
  | .timeout m => m

/-- Literal `'Error: '`. -/
def errPrefix : Str := "Error: ".toList

/-- Module function `get_var_values(comm, vars_, cb=None)`: for each
variable, read it (`GPError`/`TimeoutError` become the string
`'Error: <ex>'`), then pass it through the callback if one is given — an
exception inside the callback is swallowed (`except: pass`), keeping the raw
value.  The callback may return `None`, which is appended as-is.  `get`
models `comm.gpascii.get_variable`. -/
def get_var_values (get : Str → Except CommErr Str)
    (cb : Option (Str → Str → Except Unit (Option Str))) :
    List Str → List (Option Str)
  | [] => []
  | var :: rest =>
    let value : Option Str :=
      match get var with
      | .error ex => some (errPrefix ++ showCommErr ex)
      | .ok raw =>
        match cb with
        | none => some raw
        | some f =>
          match f var raw with
          | .error _ => some raw
          | .ok v => v
    value :: get_var_values get cb rest

/-- Pointwise update of the `last_values` dict.  Python's
`d.get(k, None)` conflates a missing key with a stored `None`, so the dict
is modelled as `Str → Option V` with `none` for both. -/
def dictUpdate {V : Type} (d : Str → Option V) (k : Str) (v : Option V) :
    Str → Option V :=
  fun k' => if k' = k then v else d k'

/-- Closure `got_value(var, value)` inside `PpmacCore.mstatus` (the one in
`PpmacCore.cstatus` is textually identical with `const.coord_normal` for
`const.motor_normal`; both are the `normal` parameter here).  The short name
is `var.split('.')[-1]`; with `--all` or for a name in `additional` the value
passes through; for a name with a known normal value, `int(value) ==
normal_value` yields `None` unless the previous stored result was
non-`None`; an abnormal value always passes through.  `toInt` models
`int(value)` (`.error` = `ValueError`); a name in none of the three cases
leaves `ret` unassigned, so `last_values[var] = ret` raises
`UnboundLocalError` — both exceptions escape `got_value`, leaving the dict
untouched (`.error`). -/
def got_value {V : Type} (all : Bool) (additional : List Str)
    (normal : Str → Option Int) (toInt : V → Except Unit Int)
    (last_values : Str → Option V) (var : Str) (value : V) :
    Except Unit (Option V × (Str → Option V)) :=
  let v := lastComponent var
  if all = true ∨ v ∈ additional then
    .ok (some value, dictUpdate last_values v (some value))
  else
    match normal v with
    | some normal_value =>
      match toInt value with
      | .error _ => .error ()
      | .ok iv =>
        let ret : Option V :=
          if iv = normal_value then
            match last_values v with
            | some _ => some value
            | none => none
          else
            -- Only include abnormal values
            some value
        .ok (ret, dictUpdate last_values v ret)
    | none => .error ()

/-- Iterated invocation of `got_value` sharing the `last_values` dict, as
happens across the variables of one `print_var_values` pass and across the
iterations of `monitor_variables`.  Each call yields its filtered result
(`.error` when `got_value` raised, in which case the dict is unchanged —
the caller swallows the exception). -/
def got_value_run {V : Type} (all : Bool) (additional : List Str)
    (normal : Str → Option Int) (toInt : V → Except Unit Int)
    (last_values : Str → Option V) :
    List (Str × V) → List (Except Unit (Option V)) × (Str → Option V)
  | [] => ([], last_values)
  | (var, value) :: rest =>
    match got_value all additional normal toInt last_values var value with
    | .error e =>
      let (outs, d) := got_value_run all additional normal toInt last_values rest
      (.error e :: outs, d)
    | .ok (ret, d') =>
      let (outs, d) := got_value_run all additional normal toInt d' rest
      (.ok ret :: outs, d)

/-- Formatting step of `print_var_values`: print `'%s = %s' % (var, value)`
for each variable whose value is not `None` (a `None` value is suppressed
from the output). -/
def print_var_lines (vars : List Str) (values : List (Option Str)) :
    List Str :=
  (vars.zip values).filterMap fun t =>
    match t with
    | (var, some value) => some (var ++ ' ' :: '=' :: ' ' :: value)
    | (_, none) => none

/-- Module function `print_var_values(comm, vars, cb=None)`: read all the
variables through `get_var_values` and print the non-`None` ones. -/
def print_var_values (get : Str → Except CommErr Str)
    (cb : Option (Str → Str → Except Unit (Option Str)))
    (vars : List Str) : List Str :=
  print_var_lines vars (get_var_values get cb vars)

/-- Loop body of one polling iteration in `monitor_variables`: for
`var, old_value, new_value` in `zip(variables, last_values, values)`, skip a
`None` new value, print (and record) the variable when the value differs
from the previous iteration's.  Returns the variables printed, in order. -/
def monitor_iter {V : Type} [DecidableEq V] (vars : List Str)
    (last values : List (Option V)) : List Str :=
  (vars.zip (last.zip values)).filterMap fun t =>
    match t with
    | (var, old_value, new_value) =>
      if new_value = none then none
      else if old_value ≠ new_value then some var else none

/-- The polling loop of `monitor_variables` run over a finite trace of
readings (each reading being what `get_var_values` returned that
iteration): `last_values` starts as the initial read and is replaced by the
whole new reading each iteration; returns the list of variables printed at
each iteration, and the accumulated change set (a variable is in it iff it
was printed at some iteration). -/
def monitor_run {V : Type} [DecidableEq V] (vars : List Str)
    (last : List (Option V)) :
    List (List (Option V)) → List (List Str) × List Str
  | [] => ([], [])
  | values :: rest =>
    let printed := monitor_iter vars last values
    let (ps, cs) := monitor_run vars values rest
    (printed :: ps, printed ++ cs)

/-! ## Theorems -/

/-- Whatever the completer returns, `fix_addr` ends in `'.a'`. -/
theorem fix_addr_ends_dotA (completer : Option (Str → Str)) (addr : Str) :
    dotA <:+ fix_addr completer addr := by
  unfold fix_addr
  set a := match completer with | none => addr | some check => check addr
  by_cases h : dotA.isSuffixOf a
  · simpa [h] using List.isSuffixOf_iff_suffix.mp h
  · simp only [h, if_false]
    exact List.suffix_append a dotA

/-- Literal `'Sys.ServoCount.a'` ends in `'.a'`. -/
theorem servoCountA_ends_dotA : dotA <:+ servoCountA :=
  List.isSuffixOf_iff_suffix.mp (by decide)

/-- C8: for every call to `connect`, each of the four arguments `host`,
`port`, `user`, `password` that is `None` is replaced by the corresponding
stored configuration value, and after `connect` returns, `self.comm` is a
connection built from exactly those substituted values (the configuration
fields themselves are unchanged). -/
theorem connect_substitutes_stored_config (s : CoreState)
    (host : Option String) (port : Option Int)
    (user : Option String) (password : Option String) :
    connect s host port user password =
      { s with comm := some ⟨host.getD s.host, port.getD s.port,
                             user.getD s.user, password.getD s.password⟩ } := by
  cases host <;> cases port <;> cases user <;> cases password <;> rfl

/-- C9: `servo_copy` invoked with `motor_from` equal to `motor_to` logs an
error and returns before `tune.copy_settings` is called, so no device
request is issued; `copy_settings` is issued exactly when the two motor
numbers differ and a connection is available (the boolean `check_comm`
returned true). -/
theorem servo_copy_same_motor_guard (s : CoreState) (mf mt : Int) :
    (mf = mt → servo_copy_cmd s (some (mf, mt)) = ([], [], (check_comm s).2)) ∧
    ((servo_copy_cmd s (some (mf, mt))).1 = [Request.copySettings mf mt] ↔
      mf ≠ mt ∧ (check_comm s).1 = true) ∧
    (mf ≠ mt → (check_comm s).1 = true →
      servo_copy_cmd s (some (mf, mt)) =
        ([Request.copySettings mf mt], [], (check_comm s).2)) := by
  unfold servo_copy_cmd
  rcases hcc : check_comm s with ⟨ok, s'⟩
  by_cases hmf : mf = mt <;> cases ok <;> simp [hmf]

/-- Witness for C9 at concrete inputs: same motor number means no request,
and distinct motors on a connected state mean exactly one copy request. -/
theorem servo_copy_same_motor_guard_witness :
    servo_copy_cmd ⟨"h", 22, "u", "p", true, some ⟨"h", 22, "u", "p"⟩⟩
        (some ((3 : Int), (3 : Int))) =
      ([], [], ⟨"h", 22, "u", "p", true, some ⟨"h", 22, "u", "p"⟩⟩) ∧
    servo_copy_cmd ⟨"h", 22, "u", "p", true, some ⟨"h", 22, "u", "p"⟩⟩
        (some ((3 : Int), (4 : Int))) =
      ([Request.copySettings 3 4], [],
       ⟨"h", 22, "u", "p", true, some ⟨"h", 22, "u", "p"⟩⟩) := by
  constructor
  · exact (servo_copy_same_motor_guard
      ⟨"h", 22, "u", "p", true, some ⟨"h", 22, "u", "p"⟩⟩ 3 3).1 rfl
  · exact (servo_copy_same_motor_guard
      ⟨"h", 22, "u", "p", true, some ⟨"h", 22, "u", "p"⟩⟩ 3 4).2.2
      (by decide) rfl

/-- C4: for every invocation of the gather command, every address passed on
to the gathering subsystem ends with `'.a'`, `'Sys.ServoCount.a'` is an
element of the list, and it is inserted at position 0 whenever it was not
already present among the (fixed) user-supplied addresses. -/
theorem gather_addresses_wellformed (completer : Option (Str → Str))
    (addresses : List Str) :
    (∀ a ∈ gather_addresses completer addresses, dotA <:+ a) ∧
    servoCountA ∈ gather_addresses completer addresses ∧
    (servoCountA ∉ addresses.map (fix_addr completer) →
      gather_addresses completer addresses =
        servoCountA :: addresses.map (fix_addr completer)) := by
  unfold gather_addresses
  by_cases h : servoCountA ∈ addresses.map (fix_addr completer)
  · refine ⟨?_, by simp [h], by simp [h]⟩
    intro a ha
    simp only [h, if_true] at ha
    obtain ⟨b, _, rfl⟩ := List.mem_map.mp ha
    exact fix_addr_ends_dotA completer b
  · refine ⟨?_, by simp [h], by simp [h]⟩
    intro a ha
    simp only [h, if_false] at ha
    rcases List.mem_cons.mp ha with rfl | ha
    · exact servoCountA_ends_dotA
    · obtain ⟨b, _, rfl⟩ := List.mem_map.mp ha
      exact fix_addr_ends_dotA completer b

/-- Witness for C4 at a concrete input: with no completer and addresses
`['x', 'y.a']`, the list handed over is
`['Sys.ServoCount.a', 'x.a', 'y.a']`. -/
theorem gather_addresses_wellformed_witness :
    gather_addresses none ["x".toList, "y.a".toList] =
      servoCountA :: ["x.a".toList, "y.a".toList] := by
  have h := (gather_addresses_wellformed none ["x".toList, "y.a".toList]).2.2
    (by decide)
  simpa [fix_addr, dotA] using h

/-- C5: `get_gather_results` raises `KeyError` exactly when the settings
dictionary lacks the key `'gather.addr'`; otherwise it returns the settings
together with the gather data retrieved for `settings['gather.addr']`; and
on the missing key, `gather_save` catches the `KeyError` and returns without
saving. -/
theorem get_gather_results_keyerror_iff {D : Type} (settings : Settings)
    (getResults : List Str → D) :
    ((∃ e, get_gather_results settings getResults = .error e) ↔
      settingsLookup settings gatherAddrKey = none) ∧
    (∀ addrs, settingsLookup settings gatherAddrKey = some addrs →
      get_gather_results settings getResults = .ok (settings, getResults addrs)) ∧
    (settingsLookup settings gatherAddrKey = none →
      ∀ save_to delimiter,
        gather_save_cmd settings getResults save_to delimiter = none) := by
  unfold get_gather_results gather_save_cmd
  cases h : settingsLookup settings gatherAddrKey <;>
    simp [h, get_gather_results]

/-- Witness for C5 at concrete inputs: an empty settings dictionary makes
`get_gather_results` raise and `gather_save` skip saving; a dictionary with
the key returns the address list's data. -/
theorem get_gather_results_keyerror_iff_witness :
    (∃ e, get_gather_results ([] : Settings) List.length = .error e) ∧
    gather_save_cmd ([] : Settings) List.length none none = none ∧
    get_gather_results [(gatherAddrKey, ["x.a".toList])] List.length =
      .ok ([(gatherAddrKey, ["x.a".toList])], 1) := by
  refine ⟨?_, ?_, ?_⟩
  · exact (get_gather_results_keyerror_iff ([] : Settings) List.length).1.mpr rfl
  · exact (get_gather_results_keyerror_iff ([] : Settings) List.length).2.2
      rfl none none
  · exact (get_gather_results_keyerror_iff
      [(gatherAddrKey, ["x.a".toList])] List.length).2.1 ["x.a".toList] rfl

/-- Structure of `pySplit`: the first piece is the text before the first
separator, and when the separator occurs the remaining pieces split the text
after its first occurrence. -/
theorem pySplit_eq (sep : Char) (l : Str) :
    pySplit sep l = l.takeWhile (fun c => c ≠ sep) ::
      (if sep ∈ l then pySplit sep ((l.dropWhile (fun c => c ≠ sep)).drop 1)
       else []) := by
  induction l with
  | nil => simp [pySplit]
  | cons c rest ih =>
    by_cases hc : c = sep
    · subst hc
      simp [pySplit, List.takeWhile_cons, List.dropWhile_cons]
    · have hsc : ¬(sep = c) := fun h => hc h.symm
      simp only [pySplit, if_neg hc, ih]
      simp [List.takeWhile_cons, List.dropWhile_cons, hc, hsc,
        List.mem_cons]

/-- When the separator occurs in the string, the split has at least two
pieces: the text before the first separator, then the text between the
first and second occurrences. -/
theorem pySplit_two_of_mem (sep : Char) (l : Str) (h : sep ∈ l) :
    ∃ t, pySplit sep l =
      l.takeWhile (fun c => c ≠ sep) ::
      ((l.dropWhile (fun c => c ≠ sep)).drop 1).takeWhile (fun c => c ≠ sep)
      :: t := by
  rw [pySplit_eq, if_pos h, pySplit_eq]
  exact ⟨_, rfl⟩

/-- C6: in the `v` command, a first argument containing `'='` is split so
that the variable name is the text before the first `'='` and the value is
the text between the first and second `'='` (anything after a second `'='`
is dropped); and the command performs a device get when the resulting value
is `None` and a device set otherwise, printing `var=result` in both
cases. -/
theorem v_cmd_parse_get_set (varName : Str) (value : Option Str)
    (s : CoreState) (gp : GpasciiChannel) (hmem : '=' ∈ varName)
    (hok : (check_comm s).1 = true) :
    vParse varName value =
      (varName.takeWhile (fun c => c ≠ '='),
       some (((varName.dropWhile (fun c => c ≠ '=')).drop 1).takeWhile
         (fun c => c ≠ '='))) ∧
    (∀ (vn : Str) (vv : Option Str),
      (∀ var res, vParse vn vv = (var, none) → gp.getVariable var = .ok res →
        v_cmd s gp (some (vn, vv)) =
          .ok ([.getVariable var], [var ++ '=' :: res], (check_comm s).2)) ∧
      (∀ var w res, vParse vn vv = (var, some w) →
        gp.setVariable var w = .ok res →
        v_cmd s gp (some (vn, vv)) =
          .ok ([.setVariable var w], [var ++ '=' :: res], (check_comm s).2))) := by
  constructor
  · unfold vParse
    rw [if_pos hmem]
    obtain ⟨t, ht⟩ := pySplit_two_of_mem '=' varName hmem
    rw [ht]
  · intro vn vv
    unfold v_cmd
    rcases hcc : check_comm s with ⟨ok, s'⟩
    rw [hcc] at hok
    simp only at hok
    subst hok
    constructor
    · intro var res hparse hget
      simp [hparse, hget]
    · intro var w res hparse hset
      simp [hparse, hset]

/-- Witness for C6 at concrete inputs: parsing `'a=b=c'` and a get/set
round-trip on a connected state. -/
theorem v_cmd_parse_get_set_witness :
    vParse "a=b=c".toList none = (['a'], some ['b']) ∧
    v_cmd ⟨"h", 22, "u", "p", true, some ⟨"h", 22, "u", "p"⟩⟩
        ⟨fun _ => .ok ['7'], fun _ _ => .ok ['8'], fun _ => []⟩
        (some (['m'], none)) =
      .ok ([.getVariable ['m']], [['m', '=', '7']],
        ⟨"h", 22, "u", "p", true, some ⟨"h", 22, "u", "p"⟩⟩) ∧
    v_cmd ⟨"h", 22, "u", "p", true, some ⟨"h", 22, "u", "p"⟩⟩
        ⟨fun _ => .ok ['7'], fun _ _ => .ok ['8'], fun _ => []⟩
        (some (['m'], some ['9'])) =
      .ok ([.setVariable ['m'] ['9']], [['m', '=', '8']],
        ⟨"h", 22, "u", "p", true, some ⟨"h", 22, "u", "p"⟩⟩) := by
  have h := v_cmd_parse_get_set "a=b=c".toList none
    ⟨"h", 22, "u", "p", true, some ⟨"h", 22, "u", "p"⟩⟩
    ⟨fun _ => .ok ['7'], fun _ _ => .ok ['8'], fun _ => []⟩
    (by decide) rfl
  refine ⟨by simpa using h.1, ?_, ?_⟩
  · exact (h.2 ['m'] none).1 ['m'] ['7'] rfl rfl
  · exact (h.2 ['m'] (some ['9'])).2 ['m'] ['9'] ['8'] rfl rfl

/-- On a disconnected state with `auto_connect` off, `check_comm` logs and
returns false, leaving the state unchanged. -/
theorem check_comm_disconnected (s : CoreState) (h1 : s.comm = none)
    (h2 : s.auto_connect = false) : check_comm s = (false, s) := by
  simp [check_comm, h1, h2]

/-- C1: `check_comm` returns false exactly when `self.comm` is still `None`
after it runs, connecting first when `auto_connect` is true; and when
`self.comm` is `None` with `auto_connect` false, every modelled command
handler that issues device requests returns immediately with no request
issued and the state unchanged (`search` issues no request through the
connection handle in any state). -/
theorem handlers_no_request_when_disconnected
    (s t u : CoreState) (gp : GpasciiChannel) (sh : Str → List Str)
    (completer : Option (Str → Str)) (cpl : Option Completer)
    (h1 : s.comm = none) (h2 : s.auto_connect = false)
    (h3 : u.comm = none) (h4 : u.auto_connect = true) :
    ((check_comm t).1 = false ↔ (check_comm t).2.comm = none) ∧
    (check_comm u).2 = connect u none none none none ∧
    (∀ args, gpascii_cmd s gp args = ([], [], s)) ∧
    (∀ args, get_var_cmd s gp args = .ok ([], [], s)) ∧
    (∀ args, set_var_cmd s gp args = .ok ([], [], s)) ∧
    (∀ args, v_cmd s gp args = .ok ([], [], s)) ∧
    (∀ cmd, shell_cmd s sh cmd = ([], [], s)) ∧
    (∀ args, servo_copy_cmd s args = ([], [], s)) ∧
    (∀ args, gather_cmd s completer args = ([], [], s)) ∧
    (∀ args st, (search_cmd st cpl args).1 = []) := by
  have hcc := check_comm_disconnected s h1 h2
  refine ⟨?_, ?_, ?_, ?_, ?_, ?_, ?_, ?_, ?_, ?_⟩
  · unfold check_comm
    by_cases ht : t.comm = none <;> by_cases ha : t.auto_connect <;>
      simp [ht, ha, connect]
  · unfold check_comm
    simp [h3, h4]
  · intro args
    unfold gpascii_cmd
    rw [hcc]
    rfl
  · intro args
    unfold get_var_cmd
    rw [hcc]
    rfl
  · intro args
    unfold set_var_cmd
    rw [hcc]
    rfl
  · intro args
    unfold v_cmd
    rw [hcc]
    rfl
  · intro cmd
    unfold shell_cmd
    by_cases hc : cmd = [] <;> simp [hc, hcc]
  · intro args
    unfold servo_copy_cmd
    cases args with
    | none => rfl
    | some a => rw [hcc]; rfl
  · intro args
    unfold gather_cmd
    cases args with
    | none => rfl
    | some a => rw [hcc]; rfl
  · intro args st
    unfold search_cmd
    cases cpl with
    | none => rfl
    | some c => cases args <;> rfl

/-- Witness for C1 at concrete inputs: a disconnected, non-auto-connect
state makes `gpascii` and `get_var` return with no side effect, and
`check_comm` on it returns false. -/
theorem handlers_no_request_when_disconnected_witness :
    gpascii_cmd ⟨"h", 22, "u", "p", false, none⟩
        ⟨fun _ => .ok [], fun _ _ => .ok [], fun _ => []⟩
        (some ([['a']], 1)) =
      ([], [], ⟨"h", 22, "u", "p", false, none⟩) ∧
    get_var_cmd ⟨"h", 22, "u", "p", false, none⟩
        ⟨fun _ => .ok [], fun _ _ => .ok [], fun _ => []⟩ (some ['m']) =
      .ok ([], [], ⟨"h", 22, "u", "p", false, none⟩) ∧
    ((check_comm ⟨"h", 22, "u", "p", false, none⟩).1 = false ↔
      (check_comm ⟨"h", 22, "u", "p", false, none⟩).2.comm = none) := by
  have h := handlers_no_request_when_disconnected
    ⟨"h", 22, "u", "p", false, none⟩ ⟨"h", 22, "u", "p", false, none⟩
    ⟨"h", 22, "u", "p", true, none⟩
    ⟨fun _ => .ok [], fun _ _ => .ok [], fun _ => []⟩ (fun _ => []) none none
    rfl rfl rfl rfl
  exact ⟨h.2.2.1 (some ([['a']], 1)), h.2.2.2.1 (some ['m']), h.1⟩

/-- C7: a `GPError` raised by `get_variable`/`set_variable` inside
`get_var`, `set_var` or `v` is caught and printed, the handler returning
normally; a `GPError` never propagates out of these three handlers. -/
theorem gp_error_caught (s : CoreState) (gp : GpasciiChannel) :
    (∀ vn m, (check_comm s).1 = true → gp.getVariable vn = .error (.gp m) →
      get_var_cmd s gp (some vn) =
        .ok ([.getVariable vn], [m], (check_comm s).2)) ∧
    (∀ vn w m, (check_comm s).1 = true →
      gp.setVariable vn w = .error (.gp m) →
      set_var_cmd s gp (some (vn, w)) =
        .ok ([.setVariable vn w], [m], (check_comm s).2)) ∧
    (∀ vn vv var m, (check_comm s).1 = true → vParse vn vv = (var, none) →
      gp.getVariable var = .error (.gp m) →
      v_cmd s gp (some (vn, vv)) =
        .ok ([.getVariable var], [m], (check_comm s).2)) ∧
    (∀ vn vv var w m, (check_comm s).1 = true →
      vParse vn vv = (var, some w) → gp.setVariable var w = .error (.gp m) →
      v_cmd s gp (some (vn, vv)) =
        .ok ([.setVariable var w], [m], (check_comm s).2)) ∧
    (∀ args m, get_var_cmd s gp args ≠ .error (.gp m)) ∧
    (∀ args m, set_var_cmd s gp args ≠ .error (.gp m)) ∧
    (∀ args m, v_cmd s gp args ≠ .error (.gp m)) := by
  refine ⟨?_, ?_, ?_, ?_, ?_, ?_, ?_⟩
  · intro vn m hok hget
    unfold get_var_cmd
    rcases hcc : check_comm s with ⟨ok, s'⟩
    rw [hcc] at hok
    simp only at hok
    subst hok
    simp [hget]
  · intro vn w m hok hset
    unfold set_var_cmd
    rcases hcc : check_comm s with ⟨ok, s'⟩
    rw [hcc] at hok
    simp only at hok
    subst hok
    simp [hset]
  · intro vn vv var m hok hparse hget
    unfold v_cmd
    rcases hcc : check_comm s with ⟨ok, s'⟩
    rw [hcc] at hok
    simp only at hok
    subst hok
    simp [hparse, hget]
  · intro vn vv var w m hok hparse hset
    unfold v_cmd
    rcases hcc : check_comm s with ⟨ok, s'⟩
    rw [hcc] at hok
    simp only at hok
    subst hok
    simp [hparse, hset]
  · intro args m
    unfold get_var_cmd
    rcases check_comm s with ⟨ok, s'⟩
    cases ok
    · simp
    · cases args with
      | none => simp
      | some vn =>
        cases hget : gp.getVariable vn with
        | ok v => simp [hget]
        | error e => cases e <;> simp [hget]
  · intro args m
    unfold set_var_cmd
    rcases check_comm s with ⟨ok, s'⟩
    cases ok
    · simp
    · cases args with
      | none => simp
      | some a =>
        rcases a with ⟨vn, w⟩
        cases hset : gp.setVariable vn w with
        | ok v => simp [hset]
        | error e => cases e <;> simp [hset]
  · intro args m
    unfold v_cmd
    rcases check_comm s with ⟨ok, s'⟩
    cases ok
    · simp
    · cases args with
      | none => simp
      | some a =>
        rcases a with ⟨vn, vv⟩
        rcases hp : vParse vn vv with ⟨var, w?⟩
        cases w? with
        | none =>
          cases hget : gp.getVariable var with
          | ok v => simp [hp, hget]
          | error e => cases e <;> simp [hp, hget]
        | some w =>
          cases hset : gp.setVariable var w with
          | ok v => simp [hp, hset]
          | error e => cases e <;> simp [hp, hset]

/-- Witness for C7 at concrete inputs: a `GPError` during get and during set
is printed and the handlers return normally. -/
theorem gp_error_caught_witness :
    get_var_cmd ⟨"h", 22, "u", "p", true, some ⟨"h", 22, "u", "p"⟩⟩
        ⟨fun _ => .error (.gp ['e']), fun _ _ => .error (.gp ['f']),
         fun _ => []⟩ (some ['m']) =
      .ok ([.getVariable ['m']], [['e']],
        ⟨"h", 22, "u", "p", true, some ⟨"h", 22, "u", "p"⟩⟩) ∧
    set_var_cmd ⟨"h", 22, "u", "p", true, some ⟨"h", 22, "u", "p"⟩⟩
        ⟨fun _ => .error (.gp ['e']), fun _ _ => .error (.gp ['f']),
         fun _ => []⟩ (some (['m'], ['1'])) =
      .ok ([.setVariable ['m'] ['1']], [['f']],
        ⟨"h", 22, "u", "p", true, some ⟨"h", 22, "u", "p"⟩⟩) := by
  have h := gp_error_caught ⟨"h", 22, "u", "p", true, some ⟨"h", 22, "u", "p"⟩⟩
    ⟨fun _ => .error (.gp ['e']), fun _ _ => .error (.gp ['f']), fun _ => []⟩
  exact ⟨h.1 ['m'] ['e'] rfl rfl, h.2.1 ['m'] ['1'] ['f'] rfl rfl⟩

/-- Pointwise characterization of `get_var_values`: it is the per-variable
image of the input list. -/
theorem get_var_values_eq_map (get : Str → Except CommErr Str)
    (cb : Option (Str → Str → Except Unit (Option Str))) (vars : List Str) :
    get_var_values get cb vars = vars.map (fun var =>
      match get var with
      | .error ex => some (errPrefix ++ showCommErr ex)
      | .ok raw =>
        match cb with
        | none => some raw
        | some f =>
          match f var raw with
          | .error _ => some raw
          | .ok v => v) := by
  induction vars with
  | nil => rfl
  | cons v rest ih => simp only [get_var_values, ih, List.map_cons]

/-- C10: `get_var_values` is total over its listed exception shapes: the
result has exactly the length of the input; a `GPError`/`TimeoutError`
while reading a variable yields `'Error: <exception>'` at that position;
and an exception in the callback is swallowed, leaving the raw value at
that position. -/
theorem get_var_values_total (get : Str → Except CommErr Str)
    (cb : Option (Str → Str → Except Unit (Option Str))) (vars : List Str) :
    (get_var_values get cb vars).length = vars.length ∧
    (∀ (i : ℕ) var ex, vars[i]? = some var → get var = .error ex →
      (get_var_values get cb vars)[i]? =
        some (some (errPrefix ++ showCommErr ex))) ∧
    (∀ (i : ℕ) var raw f e, vars[i]? = some var → get var = .ok raw →
      cb = some f → f var raw = .error e →
      (get_var_values get cb vars)[i]? = some (some raw)) := by
  rw [get_var_values_eq_map]
  refine ⟨by simp, ?_, ?_⟩
  · intro i var ex hv hg
    rw [List.getElem?_map, hv]
    simp [hg]
  · intro i var raw f e hv hg hcb hf
    rw [List.getElem?_map, hv]
    simp [hg, hcb, hf]

/-- Witness for C10 at concrete inputs: two variables, the first erroring
with a `GPError`, the second read fine but with a raising callback; the
result keeps both positions. -/
theorem get_var_values_total_witness :
    (get_var_values
        (fun v => if v = ['a'] then .error (.gp ['x']) else .ok ['1'])
        (some fun _ _ => .error ()) [['a'], ['b']]).length = 2 ∧
    (get_var_values
        (fun v => if v = ['a'] then .error (.gp ['x']) else .ok ['1'])
        (some fun _ _ => .error ()) [['a'], ['b']])[0]? =
      some (some (errPrefix ++ ['x'])) ∧
    (get_var_values
        (fun v => if v = ['a'] then .error (.gp ['x']) else .ok ['1'])
        (some fun _ _ => .error ()) [['a'], ['b']])[1]? =
      some (some ['1']) := by
  have h := get_var_values_total
    (fun v => if v = ['a'] then .error (.gp ['x']) else .ok ['1'])
    (some fun _ _ => .error ()) [['a'], ['b']]
  exact ⟨h.1, h.2.1 0 ['a'] (.gp ['x']) rfl rfl,
         h.2.2 1 ['b'] ['1'] (fun _ _ => .error ()) () rfl rfl rfl rfl⟩

/-- Head step of `monitor_iter`: the head variable is printed exactly when
its new value is non-`None` and differs from the old one. -/
theorem monitor_iter_cons {V : Type} [DecidableEq V] (v : Str) (vs : List Str)
    (o n : Option V) (os ns : List (Option V)) :
    monitor_iter (v :: vs) (o :: os) (n :: ns) =
      (if n ≠ none ∧ o ≠ n then [v] else []) ++ monitor_iter vs os ns := by
  unfold monitor_iter
  simp only [List.zip_cons_cons, List.filterMap_cons]
  by_cases hn : n = none
  · simp [hn]
  · by_cases ho : o = n
    · simp [hn, ho]
    · simp [hn, ho]

/-- Membership characterization of one polling pass: a variable is printed
iff at some position its new value is non-`None` and differs from the old
value. -/
theorem monitor_iter_mem {V : Type} [DecidableEq V] (vars : List Str)
    (last values : List (Option V)) (var : Str) :
    var ∈ monitor_iter vars last values ↔
      ∃ (i : ℕ) (old new : Option V), vars[i]? = some var ∧
        last[i]? = some old ∧ values[i]? = some new ∧
        new ≠ none ∧ old ≠ new := by
  induction vars generalizing last values with
  | nil =>
    simp [monitor_iter]
  | cons v vs ih =>
    cases last with
    | nil => simp [monitor_iter]
    | cons o os =>
      cases values with
      | nil => simp [monitor_iter]
      | cons n ns =>
        rw [monitor_iter_cons]
        constructor
        · intro hmem
          rcases List.mem_append.mp hmem with hmem | hmem
          · by_cases hcond : n ≠ none ∧ o ≠ n
            · rw [if_pos hcond] at hmem
              rcases List.mem_singleton.mp hmem with rfl
              exact ⟨0, o, n, by simp, by simp, by simp, hcond.1, hcond.2⟩
            · rw [if_neg hcond] at hmem
              cases hmem
          · obtain ⟨i, old, new, h1, h2, h3, h4, h5⟩ := (ih os ns).mp hmem
            exact ⟨i + 1, old, new, by simpa using h1, by simpa using h2,
              by simpa using h3, h4, h5⟩
        · rintro ⟨i, old, new, h1, h2, h3, h4, h5⟩
          cases i with
          | zero =>
            simp only [List.getElem?_cons_zero, Option.some_inj] at h1 h2 h3
            subst h1; subst h2; subst h3
            exact List.mem_append.mpr (Or.inl (by simp [h4, h5]))
          | succ j =>
            simp only [List.getElem?_cons_succ] at h1 h2 h3
            exact List.mem_append.mpr
              (Or.inr ((ih os ns).mpr ⟨j, old, new, h1, h2, h3, h4, h5⟩))

/-- Every variable printed at some iteration of the polling loop is in the
accumulated change set. -/
theorem monitor_run_changeSet {V : Type} [DecidableEq V] (vars : List Str)
    (init : List (Option V)) (readings : List (List (Option V))) :
    ∀ printed ∈ (monitor_run vars init readings).1,
      ∀ var ∈ printed, var ∈ (monitor_run vars init readings).2 := by
  induction readings generalizing init with
  | nil => simp [monitor_run]
  | cons r rest ih =>
    intro printed hp var hv
    simp only [monitor_run] at hp ⊢
    rcases List.mem_cons.mp hp with rfl | hp
    · exact List.mem_append.mpr (Or.inl hv)
    · exact List.mem_append.mpr (Or.inr (ih r printed hp var hv))

/-- A position whose value never changes from the initial read is never
printed after the initial report (stated for a duplicate-free variable
list). -/
theorem monitor_run_constant_silent {V : Type} [DecidableEq V]
    (vars : List Str) (hnd : vars.Nodup) (i : ℕ) (var : Str)
    (hv : vars[i]? = some var) (init : List (Option V))
    (readings : List (List (Option V)))
    (hconst : ∀ r ∈ readings, r[i]? = init[i]?) :
    ∀ printed ∈ (monitor_run vars init readings).1, var ∉ printed := by
  induction readings generalizing init with
  | nil => simp [monitor_run]
  | cons r rest ih =>
    intro printed hp
    simp only [monitor_run] at hp
    rcases List.mem_cons.mp hp with rfl | hp
    · intro hmem
      obtain ⟨j, old, new, h1, h2, h3, h4, h5⟩ :=
        (monitor_iter_mem vars init r var).mp hmem
      have hij : i = j := by
        have hi : i < vars.length := by
          by_contra hlen
          rw [List.getElem?_eq_none (Nat.le_of_not_lt hlen)] at hv
          exact Option.noConfusion hv
        exact List.getElem?_inj hi hnd (hv.trans h1.symm)
      subst hij
      have := hconst r (List.mem_cons_self r rest)
      rw [h3, h2] at this
      exact h5 (Option.some_inj.mp this).symm
    · exact ih r (fun r' hr' => (hconst r' (List.mem_cons_of_mem r hr')).trans
        (hconst r (List.mem_cons_self r rest)).symm) printed hp

/-- C3: in the polling loop of `monitor_variables`, a variable is printed at
an iteration iff its newly read value is not `None` and differs from the
value read on the previous iteration; every printed variable is added to
the change set; and a variable whose value never changes after the initial
report is never printed again. -/
theorem monitor_prints_iff_changed {V : Type} [DecidableEq V]
    (vars : List Str) (hnd : vars.Nodup) :
    (∀ (last values : List (Option V)) (var : Str),
      var ∈ monitor_iter vars last values ↔
        ∃ (i : ℕ) (old new : Option V), vars[i]? = some var ∧
          last[i]? = some old ∧ values[i]? = some new ∧
          new ≠ none ∧ old ≠ new) ∧
    (∀ (init : List (Option V)) readings,
      ∀ printed ∈ (monitor_run vars init readings).1,
        ∀ var ∈ printed, var ∈ (monitor_run vars init readings).2) ∧
    (∀ (i : ℕ) (var : Str) (init : List (Option V)) readings,
      vars[i]? = some var → (∀ r ∈ readings, r[i]? = init[i]?) →
      ∀ printed ∈ (monitor_run vars init readings).1, var ∉ printed) := by
  refine ⟨fun last values var => monitor_iter_mem vars last values var,
    fun init readings => monitor_run_changeSet vars init readings,
    fun i var init readings hv hconst =>
      monitor_run_constant_silent vars hnd i var hv init readings hconst⟩

/-- Witness for C3 at concrete inputs: variables `['a'], ['b']` with initial
values `[some 1, some 2]` and two polling reads; `'a'` changes at the first
read only and lands in the change set, `'b'` stays constant and is never
printed. -/
theorem monitor_prints_iff_changed_witness :
    (['a'] ∈ monitor_iter [['a'], ['b']] [some 1, some 2]
        [some (3 : Int), some 2] ↔
      ∃ (i : ℕ) (old new : Option Int), [['a'], ['b']][i]? = some ['a'] ∧
        [some 1, some 2][i]? = some old ∧
        [some (3 : Int), some 2][i]? = some new ∧
        new ≠ none ∧ old ≠ new) ∧
    (∀ printed ∈ (monitor_run [['a'], ['b']] [some (1 : Int), some 2]
        [[some 3, some 2], [some 3, some 2]]).1,
      ∀ var ∈ printed, var ∈ (monitor_run [['a'], ['b']]
        [some (1 : Int), some 2] [[some 3, some 2], [some 3, some 2]]).2) ∧
    (∀ printed ∈ (monitor_run [['a'], ['b']] [some (1 : Int), some 2]
        [[some 3, some 2], [some 3, some 2]]).1, ['b'] ∉ printed) := by
  have h := monitor_prints_iff_changed (V := Int) [['a'], ['b']] (by decide)
  exact ⟨h.1 [some 1, some 2] [some 3, some 2] ['a'],
    h.2.1 [some 1, some 2] [[some 3, some 2], [some 3, some 2]],
    h.2.2 1 ['b'] [some 1, some 2] [[some 3, some 2], [some 3, some 2]]
      rfl (by decide)⟩

/-- One `got_value` call for a short name with a known normal value (not in
`additional`, no `--all`, integer values): the result is `None` exactly when
the value is normal and the stored last result is `None`; the dict records
the result. -/
theorem got_value_normal_step (additional : List Str)
    (normal : Str → Option Int) (fullvar : Str) (nv : Int)
    (hnorm : normal (lastComponent fullvar) = some nv)
    (hadd : lastComponent fullvar ∉ additional)
    (d : Str → Option Int) (value : Int) :
    got_value false additional normal Except.ok d fullvar value =
      .ok ((if value = nv ∧ d (lastComponent fullvar) = none then none
            else some value),
           dictUpdate d (lastComponent fullvar)
             (if value = nv ∧ d (lastComponent fullvar) = none then none
              else some value)) := by
  unfold got_value
  have hcond : ¬(false = true ∨ lastComponent fullvar ∈ additional) := by
    simp [hadd]
  rw [if_neg hcond, hnorm]
  by_cases hv : value = nv
  · cases hd : d (lastComponent fullvar) <;> simp [hv, hd]
  · simp [hv]

/-- Run characterization of the `got_value` filter on a single variable: the
i-th result is `None` iff the i-th value is normal, the initial stored value
is `None`, and every earlier result was `None`; an abnormal value always
comes back unchanged. -/
theorem got_value_run_normal (additional : List Str)
    (normal : Str → Option Int) (fullvar : Str) (nv : Int)
    (hnorm : normal (lastComponent fullvar) = some nv)
    (hadd : lastComponent fullvar ∉ additional) :
    ∀ (vs : List Int) (d : Str → Option Int) (i : ℕ) (vi : Int),
      vs[i]? = some vi →
      (((got_value_run false additional normal Except.ok d
            (vs.map (fun v => (fullvar, v)))).1[i]? = some (.ok none)) ↔
        (vi = nv ∧ d (lastComponent fullvar) = none ∧
          ∀ j < i, (got_value_run false additional normal Except.ok d
            (vs.map (fun v => (fullvar, v)))).1[j]? = some (.ok none))) ∧
      (vi ≠ nv →
        (got_value_run false additional normal Except.ok d
          (vs.map (fun v => (fullvar, v)))).1[i]? = some (.ok (some vi))) := by
  intro vs
  induction vs with
  | nil => intro d i vi h; simp at h
  | cons v rest ih =>
    intro d i vi hvi
    have hstep := got_value_normal_step additional normal fullvar nv hnorm
      hadd d v
    set lc := lastComponent fullvar with hlc
    set ret : Option Int := if v = nv ∧ d lc = none then none else some v
      with hret
    have hrun : got_value_run false additional normal Except.ok d
        ((v :: rest).map (fun x => (fullvar, x))) =
        (.ok ret :: (got_value_run false additional normal Except.ok
            (dictUpdate d lc ret) (rest.map (fun x => (fullvar, x)))).1,
         (got_value_run false additional normal Except.ok
            (dictUpdate d lc ret) (rest.map (fun x => (fullvar, x)))).2) := by
      rw [List.map_cons, got_value_run, hstep]
    have hretnone : ret = none ↔ (v = nv ∧ d lc = none) := by
      by_cases hc : v = nv ∧ d lc = none <;> simp [hret, hc]
    cases i with
    | zero =>
      simp only [List.getElem?_cons_zero, Option.some_inj] at hvi
      subst hvi
      rw [hrun]
      constructor
      · simp only [List.getElem?_cons_zero, Option.some_inj]
        constructor
        · intro h
          have hr : ret = none := by
            cases hr' : ret
            · rfl
            · rw [hr'] at h; exact absurd h (by simp)
          obtain ⟨h1, h2⟩ := hretnone.mp hr
          exact ⟨h1, h2, fun j hj => absurd hj (Nat.not_lt_zero j)⟩
        · rintro ⟨h1, h2, _⟩
          rw [hretnone.mpr ⟨h1, h2⟩]
      · intro hne
        simp only [List.getElem?_cons_zero, Option.some_inj]
        rw [hret, if_neg (fun hc => hne hc.1)]
    | succ j =>
      simp only [List.getElem?_cons_succ] at hvi
      obtain ⟨ih1, ih2⟩ := ih (dictUpdate d lc ret) j vi hvi
      have hdu : dictUpdate d lc ret lc = ret := by simp [dictUpdate]
      rw [hrun]
      simp only [List.getElem?_cons_succ]
      constructor
      · rw [ih1, hdu]
        constructor
        · rintro ⟨h1, h2, h3⟩
          obtain ⟨hv, hd⟩ := hretnone.mp h2
          refine ⟨h1, hd, fun k hk => ?_⟩
          cases k with
          | zero => simp [h2]
          | succ k' =>
            simp only [List.getElem?_cons_succ]
            exact h3 k' (Nat.lt_of_succ_lt_succ hk)
        · rintro ⟨h1, h2, h3⟩
          have h0 := h3 0 (Nat.succ_pos j)
          simp only [List.getElem?_cons_zero, Option.some_inj] at h0
          have hr : ret = none := by
            cases hr' : ret
            · rfl
            · rw [hr'] at h0; exact absurd h0 (by simp)
          refine ⟨h1, hr, fun k hk => ?_⟩
          have := h3 (k + 1) (Nat.succ_lt_succ hk)
          simpa using this
      · intro hne
        exact ih2 hne

/-- C2: in `mstatus` (and identically `cstatus`) without `--all`, for a
status variable whose short name has a known normal value and is not given
in `additional`, the `got_value` filter returns `None` exactly when the
integer value equals the normal value and the variable has not previously
produced a non-`None` result; a value differing from the normal one is
always returned.  The final conjunct records that a `None` filtered value is
suppressed from the printed output. -/
theorem got_value_suppresses_normal (additional : List Str)
    (normal : Str → Option Int) (fullvar : Str) (nv : Int)
    (vs : List Int) (i : ℕ) (vi : Int)
    (hnorm : normal (lastComponent fullvar) = some nv)
    (hadd : lastComponent fullvar ∉ additional)
    (hvi : vs[i]? = some vi) :
    (((got_value_run false additional normal Except.ok (fun _ => none)
          (vs.map (fun v => (fullvar, v)))).1[i]? = some (.ok none)) ↔
      (vi = nv ∧
        ∀ j < i, (got_value_run false additional normal Except.ok
          (fun _ => none)
          (vs.map (fun v => (fullvar, v)))).1[j]? = some (.ok none))) ∧
    (vi ≠ nv →
      (got_value_run false additional normal Except.ok (fun _ => none)
        (vs.map (fun v => (fullvar, v)))).1[i]? = some (.ok (some vi))) ∧
    (∀ (vars2 : List Str) (values : List (Option Str)) (line : Str),
      line ∈ print_var_lines vars2 values → ∃ (k : ℕ), ∃ var v,
        vars2[k]? = some var ∧ values[k]? = some (some v) ∧
        line = var ++ ' ' :: '=' :: ' ' :: v) := by
  obtain ⟨h1, h2⟩ := got_value_run_normal additional normal fullvar nv hnorm
    hadd vs (fun _ => none) i vi hvi
  refine ⟨by rw [h1]; tauto, h2, ?_⟩
  intro vars2 values line hline
  induction vars2 generalizing values with
  | nil => simp [print_var_lines] at hline
  | cons var2 rest ihv =>
    cases values with
    | nil => simp [print_var_lines] at hline
    | cons val vals =>
      unfold print_var_lines at hline
      rw [List.zip_cons_cons, List.filterMap_cons] at hline
      cases val with
      | none =>
        obtain ⟨k, var, v, hk1, hk2, hk3⟩ := ihv vals hline
        exact ⟨k + 1, var, v, by simpa using hk1, by simpa using hk2, hk3⟩
      | some v0 =>
        rcases List.mem_cons.mp hline with rfl | hline
        · exact ⟨0, var2, v0, by simp, by simp, rfl⟩
        · obtain ⟨k, var, v, hk1, hk2, hk3⟩ := ihv vals hline
          exact ⟨k + 1, var, v, by simpa using hk1, by simpa using hk2, hk3⟩

/-- Witness for C2 at concrete inputs: on `Motor[3].s` with normal value 0
and the value trace `[0, 1, 0]`, the first normal read is suppressed, the
abnormal read is shown, and the final normal read is shown again (a
non-`None` result had been produced). -/
theorem got_value_suppresses_normal_witness :
    ((got_value_run false [] (fun v => if v = ['s'] then some 0 else none)
          Except.ok (fun _ => none)
          (([0, 1, 0] : List Int).map
            (fun v => ("Motor[3].s".toList, v)))).1[1]? =
        some (.ok (some 1))) ∧
    ((got_value_run false [] (fun v => if v = ['s'] then some 0 else none)
          Except.ok (fun _ => none)
          (([0, 1, 0] : List Int).map
            (fun v => ("Motor[3].s".toList, v)))).1[0]? =
        some (.ok none)) := by
  have h1 := got_value_suppresses_normal []
    (fun v => if v = ['s'] then some 0 else none) "Motor[3].s".toList 0
    [0, 1, 0] 1 1 (by decide) (by decide) rfl
  have h0 := got_value_suppresses_normal []
    (fun v => if v = ['s'] then some 0 else none) "Motor[3].s".toList 0
    [0, 1, 0] 0 0 (by decide) (by decide) rfl
  refine ⟨h1.2.1 (by decide), ?_⟩
  exact h0.1.mpr ⟨rfl, fun j hj => absurd hj (Nat.not_lt_zero j)⟩

end Ppmac
